import Mathlib

/-!
Verification of the badcrossbar crossbar-simulation core.

The development shallowly embeds the Python sources:
  * `badcrossbar/computing/fill.py` (functions `g` and `i`) over a
    functional matrix model `Mat` in which every numpy operation used by
    the source is its own definition;
  * `badcrossbar/check.py` (validation) over arrays of `FVal` values,
    a rational-number model of floating-point entries that keeps the two
    infinities so that sign and zero tests behave as in numpy;
  * `badcrossbar/compute.py` (orchestration entry point).
The KCL stencil `kcl.apply` and the extraction step `extract.solution`
are not part of the available sources; they are modelled from the spec
where needed and clearly marked as such.
-/

/-- Functional model of a 2-D numpy array: explicit row and column counts
together with an entry function.  Entries outside the stated bounds are
irrelevant to every statement below. -/
structure Mat where
  rows : ℕ
  cols : ℕ
  entry : ℕ → ℕ → ℚ

/-- Model of `np.zeros(shape)`. -/
def npZeros (r c : ℕ) : Mat :=
  { rows := r, cols := c, entry := fun _ _ => 0 }

/-- Model of `np.repeat(a, k, axis=0)`: every row is repeated `k`
consecutive times. -/
def npRepeatRows (a : Mat) (k : ℕ) : Mat :=
  { rows := a.rows * k, cols := a.cols, entry := fun r c => a.entry (r / k) c }

/-- Model of `np.repeat(a, k, axis=1)`: every column is repeated `k`
consecutive times. -/
def npRepeatCols (a : Mat) (k : ℕ) : Mat :=
  { rows := a.rows, cols := a.cols * k, entry := fun r c => a.entry r (c / k) }

/-- Model of `a.reshape(a.size, 1)` for a 2-D array `a`: row-major
flattening into a single column. -/
def reshapeFlatCol (a : Mat) : Mat :=
  { rows := a.rows * a.cols, cols := 1,
    entry := fun r _ => a.entry (r / a.cols) (r % a.cols) }

/-- Model of elementwise `np.divide(a, b)` on arrays of equal shape. -/
def npDivide (a b : Mat) : Mat :=
  { rows := a.rows, cols := a.cols, entry := fun r c => a.entry r c / b.entry r c }

/-- Model of `a / q` for a scalar `q`. -/
def matDivScalar (a : Mat) (q : ℚ) : Mat :=
  { rows := a.rows, cols := a.cols, entry := fun r c => a.entry r c / q }

/-- Model of the sliced assignment `mat[:stop:step, :] = rhs`: row `r`
with `r < stop` and `r % step = 0` takes row `r / step` of `rhs`, all
other rows are left unchanged. -/
def sliceAssignStep (mat : Mat) (stop step : ℕ) (rhs : Mat) : Mat :=
  { rows := mat.rows, cols := mat.cols,
    entry := fun r c =>
      if r < stop ∧ r % step = 0 then rhs.entry (r / step) c else mat.entry r c }

/-- Per-edge contribution of the nodal-admittance stencil: an edge
`(u, v, gc)` adds `gc` to both diagonal entries `(u,u)` and `(v,v)` and
`-gc` to the off-diagonal entries `(u,v)` and `(v,u)`. -/
def contrib (e : ℕ × ℕ × ℚ) (a b : ℕ) : ℚ :=
  (if a = e.1 ∧ b = e.1 then e.2.2 else 0)
    + (if a = e.2.1 ∧ b = e.2.1 then e.2.2 else 0)
    + (if (a = e.1 ∧ b = e.2.1) ∨ (a = e.2.1 ∧ b = e.1) then -e.2.2 else 0)

/-- Entry `(a, b)` of the weighted graph Laplacian of an edge list. -/
def lapEntry (edges : List (ℕ × ℕ × ℚ)) (a b : ℕ) : ℚ :=
  (edges.map (fun e => contrib e a b)).sum

/-- Edge list of the conductance stencil, following the spec.  Full mode
(no ideal line): node `w(i,j)` has index `i*n + j` and node `b(i,j)` has
index `m*n + i*n + j`; the edges are the device branches `w(i,j)—b(i,j)`
with conductance `1/R(i,j)`, the word-line interconnect branches
`w(i,j)—w(i,j+1)` with conductance `1/r_word`, and the bit-line
interconnect branches `b(i,j)—b(i+1,j)` with conductance `1/r_bit`.
Reduced mode (some ideal line): single node `v(i,j)` at index `i*n + j`;
only the non-ideal line type is stenciled between adjacent nodes along
its direction, and no off-diagonal terms remain when both lines are
ideal. -/
def kclEdges (resistances : Mat) (rw rb : ℚ) : List (ℕ × ℕ × ℚ) :=
  let m := resistances.rows
  let n := resistances.cols
  if rw = 0 ∨ rb = 0 then
    if rw = 0 ∧ rb = 0 then []
    else if rw = 0 then
      (List.range (m - 1)).flatMap (fun i =>
        (List.range n).map (fun j => (i * n + j, (i + 1) * n + j, 1 / rb)))
    else
      (List.range m).flatMap (fun i =>
        (List.range (n - 1)).map (fun j => (i * n + j, i * n + j + 1, 1 / rw)))
  else
    (List.range m).flatMap (fun i =>
      (List.range n).map (fun j =>
        (i * n + j, m * n + i * n + j, 1 / resistances.entry i j)))
    ++ (List.range m).flatMap (fun i =>
      (List.range (n - 1)).map (fun j => (i * n + j, i * n + j + 1, 1 / rw)))
    ++ (List.range (m - 1)).flatMap (fun i =>
      (List.range n).map (fun j => (m * n + i * n + j, m * n + (i + 1) * n + j, 1 / rb)))

/-- Modelled from the spec: `kcl.apply` (file `computing/kcl.py`, whose
source is not available) populates the conductance matrix so that
`G·V = I` expresses KCL at every node, adding to the matrix it receives
the standard nodal-admittance stencil of the crossbar edge list; the
matrix shape is preserved. -/
def kclApply (g0 : Mat) (resistances : Mat) (rw rb : ℚ) : Mat :=
  { rows := g0.rows, cols := g0.cols,
    entry := fun a b => g0.entry a b + lapEntry (kclEdges resistances rw rb) a b }

/-- Embedding of `fill.g`: the matrix shape is `(size, size)` with
`size = resistances.size` when `0 in r_i` and `size = 2*resistances.size`
otherwise, and the zero-initialised matrix is filled by `kcl.apply`. -/
def fillG (resistances : Mat) (rw rb : ℚ) : Mat :=
  let size := if rw = 0 ∨ rb = 0 then resistances.rows * resistances.cols
              else 2 * (resistances.rows * resistances.cols)
  kclApply (npZeros size size) resistances rw rb

/-- Embedding of `fill.i`: the matrix shape is `(size, p)` with the same
`size` rule as `fill.g`; when `r_i.word_line > 0` the rows
`[:resistances.size:resistances.shape[1]]` receive
`applied_voltages / r_i.word_line`, otherwise the matrix is replaced by
`np.divide(np.repeat(applied_voltages, n, axis=0),
np.repeat(resistances.reshape(size, 1), p, axis=1))`. -/
def fillI (applied resistances : Mat) (rw rb : ℚ) : Mat :=
  let size := if rw = 0 ∨ rb = 0 then resistances.rows * resistances.cols
              else 2 * (resistances.rows * resistances.cols)
  let i0 := npZeros size applied.cols
  if 0 < rw then
    sliceAssignStep i0 (resistances.rows * resistances.cols) resistances.cols
      (matDivScalar applied rw)
  else
    npDivide (npRepeatRows applied resistances.cols)
      (npRepeatCols (reshapeFlatCol resistances) applied.cols)

/-- Model of a floating-point array entry: a finite rational or one of
the two infinities.  Validation in `check.py` only compares entries with
zero, so this carries exactly the structure those comparisons need. -/
inductive FVal where
  | fin (q : ℚ)
  | pinf
  | ninf
deriving DecidableEq, Repr

/-- Model of `x < 0` on an array entry, as numpy evaluates it:
negative infinity is below zero, positive infinity is not. -/
def FVal.ltZero : FVal → Bool
  | .fin q => decide (q < 0)
  | .pinf => false
  | .ninf => true

/-- Model of `x == 0` on an array entry. -/
def FVal.eqZero : FVal → Bool
  | .fin q => decide (q = 0)
  | .pinf => false
  | .ninf => false

/-- A 2-D numeric array, row by row. -/
abbrev Arr := List (List FVal)

/-- Model of `array.size`: the total number of elements. -/
def arrSize (a : Arr) : ℕ :=
  (a.map List.length).sum

/-- Model of `0 in array`: some entry compares equal to zero. -/
def containsZero (a : Arr) : Bool :=
  a.any (fun row => row.any FVal.eqZero)

/-- Model of `(array < 0).any()`: some entry compares below zero. -/
def anyNegative (a : Arr) : Bool :=
  a.any (fun row => row.any FVal.ltZero)

/-- Model of the exceptions raised by `check.py`: the Python class
(`TypeError` or `ValueError`) together with the message text. -/
inductive CheckErr where
  | typeError (msg : String)
  | valueError (msg : String)
deriving DecidableEq, Repr

/-- Message of the `ValueError` raised by `check.short_circuit` when the
interconnect resistances are both zero. -/
def shortCircuitMsg : String :=
  "At least some crossbar devices have zero resistance causing short circuit!"

/-- Message of the `ValueError` raised by `check.short_circuit` when the
interconnect resistances are not both zero. -/
def zeroResistanceMsg : String :=
  "At least some crossbar devices have zero resistance! This is not currently supported even if it does not cause short circuit."

/-- Embedding of `check.short_circuit`: raises when some device
resistance equals zero, with one message when both interconnect
resistances are zero and another message otherwise. -/
def short_circuit (resistances : Arr) (rw rb : ℚ) : Except CheckErr Unit :=
  if containsZero resistances then
    if rw = 0 ∧ rb = 0 then .error (.valueError shortCircuitMsg)
    else .error (.valueError zeroResistanceMsg)
  else .ok ()

/-- Embedding of `check.non_empty`: raises when `array.size == 0`. -/
def non_empty (a : Arr) (name : String) : Except CheckErr Unit :=
  if arrSize a = 0 then .error (.valueError (name ++ " array is empty!"))
  else .ok ()

/-- Embedding of `check.non_negative_array`: raises when some entry is
below zero. -/
def non_negative_array (a : Arr) (name : String) : Except CheckErr Unit :=
  if anyNegative a then
    .error (.valueError (name ++ " array contains at least one negative value!"))
  else .ok ()

/-- Embedding of `check.number` applied to an interconnect-resistance
argument: `None` is not an `int` or `float` and raises `TypeError`;
a present numeric value passes and is returned.  Numbers are modelled
as rationals, so the `isinstance` test always passes on them. -/
def number (v : Option ℚ) (name : String) : Except CheckErr ℚ :=
  match v with
  | none => .error (.typeError ("Type NoneType of " ++ name ++ " is not supported. Use int or float instead."))
  | some q => .ok q

/-- Embedding of `check.non_negative_number`: raises when negative. -/
def non_negative_number (q : ℚ) (name : String) : Except CheckErr Unit :=
  if q < 0 then .error (.valueError (name ++ " is negative!"))
  else .ok ()

/-- Embedding of `check.crossbar_requirements`.  The inputs are already
2-D numeric arrays in this model, so `n_dimensional` and
`numeric_array` pass by construction; the remaining checks run in the
source order: `non_empty` on resistances then on applied voltages,
`non_negative_array` on resistances, `match_shape` on the row counts,
`number` and `non_negative_number` on each interconnect resistance, and
finally `short_circuit`.  On success the (converted) arrays are
returned. -/
def crossbar_requirements (resistances applied_voltages : Arr)
    (rwO rbO : Option ℚ) : Except CheckErr (Arr × Arr) :=
  match non_empty resistances "resistances" with
  | .error e => .error e
  | .ok _ =>
  match non_empty applied_voltages "applied_voltages" with
  | .error e => .error e
  | .ok _ =>
  match non_negative_array resistances "resistances" with
  | .error e => .error e
  | .ok _ =>
  if applied_voltages.length ≠ resistances.length then
    .error (.valueError "Dimension 0 of array applied_voltages should match dimension 0 of array resistances!")
  else
  match number rwO "r_i_word_line" with
  | .error e => .error e
  | .ok rw =>
  match non_negative_number rw "r_i_word_line" with
  | .error e => .error e
  | .ok _ =>
  match number rbO "r_i_bit_line" with
  | .error e => .error e
  | .ok rb =>
  match non_negative_number rb "r_i_bit_line" with
  | .error e => .error e
  | .ok _ =>
  match short_circuit resistances rw rb with
  | .error e => .error e
  | .ok _ => .ok (resistances, applied_voltages)

/-- Shapes of the arrays of the result bundle: one field per named group
of reconstructed quantities. -/
structure Solution where
  deviceCurrents : List ℕ
  wordLineCurrents : List ℕ
  bitLineCurrents : List ℕ
  outputCurrents : List ℕ
  wordLineVoltages : List ℕ
  bitLineVoltages : List ℕ
deriving DecidableEq, Repr

/-- Modelled from the spec: `computing.extract.solution` (file
`computing/extract.py`, whose source is not available) solves the system
and reshapes every reconstructed quantity to the crossbar geometry;
device, word-line and bit-line currents and the node voltages have shape
`m x n` when `p == 1` and `m x n x p` when `p > 1`, and the output
currents have shape `p x n`.  Only the shapes are modelled here. -/
def extractSolution (resistances applied_voltages : Arr) : Solution :=
  let m := resistances.length
  let n := (resistances.headD []).length
  let p := (applied_voltages.headD []).length
  let base := if p = 1 then [m, n] else [m, n, p]
  { deviceCurrents := base, wordLineCurrents := base, bitLineCurrents := base,
    outputCurrents := [p, n], wordLineVoltages := base, bitLineVoltages := base }

/-- Embedding of `compute.compute`: when `r_i` is not `None` both
interconnect resistances are set to `r_i`; the inputs then pass through
`check.crossbar_requirements` and the validated arrays are handed to
`computing.extract.solution`. -/
def compute (applied_voltages resistances : Arr)
    (r_i rwO rbO : Option ℚ) : Except CheckErr Solution :=
  let rwO := if r_i.isSome then r_i else rwO
  let rbO := if r_i.isSome then r_i else rbO
  match crossbar_requirements resistances applied_voltages rwO rbO with
  | .error e => .error e
  | .ok pr => .ok (extractSolution pr.1 pr.2)

/-- The stencil contribution of a single edge is symmetric in the two
node indices. -/
theorem contrib_symm (e : ℕ × ℕ × ℚ) (a b : ℕ) : contrib e a b = contrib e b a := by
  obtain ⟨u, v, gc⟩ := e
  simp only [contrib]
  by_cases h1 : a = u <;> by_cases h2 : b = u <;>
    by_cases h3 : a = v <;> by_cases h4 : b = v <;>
    simp [h1, h2, h3, h4]

/-- The graph Laplacian of any edge list is symmetric. -/
theorem lapEntry_symm (edges : List (ℕ × ℕ × ℚ)) (a b : ℕ) :
    lapEntry edges a b = lapEntry edges b a := by
  induction edges with
  | nil => rfl
  | cons e es ih =>
    simp only [lapEntry, List.map_cons, List.sum_cons] at *
    rw [contrib_symm, ih]

/-- Concrete resistances array used to instantiate proved statements. -/
def matW : Mat :=
  ⟨2, 3, fun i j => (i : ℚ) + 2 * (j : ℚ) + 1⟩

/-- Concrete applied-voltages array used to instantiate proved
statements. -/
def appW : Mat :=
  ⟨2, 4, fun i j => (i : ℚ) + (j : ℚ)⟩

/-- C5: for every resistances array and interconnect pair, the
conductance matrix returned by `fill.g` is symmetric:
`G[a,b] = G[b,a]` for every index pair `(a,b)`. -/
theorem fillG_symmetric (resistances : Mat) (rw rb : ℚ) (a b : ℕ) :
    (fillG resistances rw rb).entry a b = (fillG resistances rw rb).entry b a := by
  simp only [fillG, kclApply, npZeros]
  rw [lapEntry_symm]

/-- C2: the conductance matrix assembled by `fill.g` is square of size
`2*m*n` when both interconnect resistances are positive (full mode) and
of size `m*n` when either of them is zero (reduced mode). -/
theorem fillG_size (resistances : Mat) (rw rb : ℚ) :
    ((0 < rw ∧ 0 < rb) →
      (fillG resistances rw rb).rows = 2 * (resistances.rows * resistances.cols) ∧
      (fillG resistances rw rb).cols = 2 * (resistances.rows * resistances.cols)) ∧
    ((rw = 0 ∨ rb = 0) →
      (fillG resistances rw rb).rows = resistances.rows * resistances.cols ∧
      (fillG resistances rw rb).cols = resistances.rows * resistances.cols) := by
  constructor
  · rintro ⟨h1, h2⟩
    have hc : ¬(rw = 0 ∨ rb = 0) := by
      rintro (h | h) <;> simp [h] at h1 h2
    simp [fillG, kclApply, npZeros, hc]
  · intro h
    simp [fillG, kclApply, npZeros, h]

/-- Instantiation of `fillG_size` at concrete inputs: a 2 x 3 array in
full mode and in reduced mode. -/
theorem fillG_size_witness :
    (fillG matW 1 1).rows = 2 * (matW.rows * matW.cols) ∧
    (fillG matW 0 1).rows = matW.rows * matW.cols :=
  ⟨((fillG_size matW 1 1).1 ⟨by norm_num, by norm_num⟩).1,
   ((fillG_size matW 0 1).2 (Or.inl rfl)).1⟩

/-- C10: when `r_i` is not `None`, `compute` behaves exactly as a call
in which both `r_i_word_line` and `r_i_bit_line` equal `r_i`, whatever
values were passed for them. -/
theorem compute_r_i_override (applied_voltages resistances : Arr) (x : ℚ)
    (rwO rbO : Option ℚ) :
    compute applied_voltages resistances (some x) rwO rbO =
      compute applied_voltages resistances none (some x) (some x) := rfl

/-- C7: for valid inputs (non-negative word-line interconnect resistance
and matching row counts), the source matrix built by `fill.i` has
exactly as many rows as the conductance matrix built by `fill.g` for the
same resistances and interconnect pair — `m*n` rows when either
interconnect resistance is zero and `2*m*n` rows otherwise — and exactly
as many columns as there are applied-voltage examples. -/
theorem fillI_shape_matches_fillG (applied resistances : Mat) (rw rb : ℚ)
    (hrw : 0 ≤ rw) (hm : applied.rows = resistances.rows) :
    (fillI applied resistances rw rb).rows = (fillG resistances rw rb).rows ∧
    (fillI applied resistances rw rb).cols = applied.cols ∧
    ((rw = 0 ∨ rb = 0) →
      (fillI applied resistances rw rb).rows = resistances.rows * resistances.cols) ∧
    (¬(rw = 0 ∨ rb = 0) →
      (fillI applied resistances rw rb).rows = 2 * (resistances.rows * resistances.cols)) := by
  rcases eq_or_lt_of_le hrw with heq | hlt
  · have h0 : rw = 0 := heq.symm
    subst h0
    simp [fillI, fillG, kclApply, npZeros, npDivide, npRepeatRows, hm,
      Nat.mul_comm]
  · have hne : ¬ rw = 0 := ne_of_gt hlt
    refine ⟨?_, ?_, ?_, ?_⟩
    · simp [fillI, fillG, kclApply, npZeros, sliceAssignStep, hlt]
    · simp [fillI, npZeros, sliceAssignStep, hlt]
    · rintro (h | h)
      · exact absurd h hne
      · simp [fillI, npZeros, sliceAssignStep, hlt, h, hne]
    · intro h
      simp [fillI, npZeros, sliceAssignStep, hlt, h]

/-- Instantiation of `fillI_shape_matches_fillG` at the concrete 2 x 3
resistances array and 2 x 4 applied-voltages array. -/
theorem fillI_shape_matches_fillG_witness :
    (fillI appW matW 1 1).rows = (fillG matW 1 1).rows :=
  (fillI_shape_matches_fillG appW matW 1 1 (by norm_num) rfl).1

/-- C3: in full mode, the source matrix built by `fill.i` holds
`applied_voltages[i,k] / r_word` at row `i*n` (the leftmost word-line
node of word line `i`) for every word line `i` and example `k`, and
every other entry is zero. -/
theorem fillI_full_mode (applied resistances : Mat) (rw rb : ℚ)
    (hrw : 0 < rw) (_hrb : 0 < rb) (hn : 0 < resistances.cols) :
    (∀ i k, i < resistances.rows →
      (fillI applied resistances rw rb).entry (i * resistances.cols) k =
        applied.entry i k / rw) ∧
    (∀ r k, (∀ i, i < resistances.rows → r ≠ i * resistances.cols) →
      (fillI applied resistances rw rb).entry r k = 0) := by
  constructor
  · intro i k hi
    have hlt : i * resistances.cols < resistances.rows * resistances.cols :=
      Nat.mul_lt_mul_of_lt_of_le hi (Nat.le_refl _) hn
    simp [fillI, sliceAssignStep, matDivScalar, npZeros, hrw, hlt,
      Nat.mul_mod_left, Nat.mul_div_cancel i hn]
  · intro r k hno
    have hcond : ¬(r < resistances.rows * resistances.cols ∧ r % resistances.cols = 0) := by
      rintro ⟨h1, h2⟩
      have hdvd : r / resistances.cols * resistances.cols = r :=
        Nat.div_mul_cancel (Nat.dvd_of_mod_eq_zero h2)
      have hlt : r / resistances.cols < resistances.rows :=
        (Nat.div_lt_iff_lt_mul hn).mpr h1
      exact hno (r / resistances.cols) hlt hdvd.symm
    simp [fillI, sliceAssignStep, npZeros, hrw, hcond]

/-- Instantiation of `fillI_full_mode` at the concrete arrays: row
`1*3 = 3` of the source matrix holds the scaled voltage, and row 1 is
zero. -/
theorem fillI_full_mode_witness :
    (fillI appW matW 2 1).entry (1 * matW.cols) 0 = appW.entry 1 0 / 2 ∧
    (fillI appW matW 2 1).entry 1 0 = 0 :=
  ⟨(fillI_full_mode appW matW 2 1 (by norm_num) (by norm_num) (by decide)).1 1 0
     (by norm_num [matW]),
   (fillI_full_mode appW matW 2 1 (by norm_num) (by norm_num) (by decide)).2 1 0
     (by decide)⟩

/-- C4: in reduced mode with an ideal word line, the source matrix built
by `fill.i` holds `applied_voltages[i,k] / R(i,j)` at row `i*n + j` for
every crosspoint `(i,j)` and example `k`. -/
theorem fillI_reduced_word_line (applied resistances : Mat) (rb : ℚ)
    (hn : 0 < resistances.cols) :
    ∀ i j k, j < resistances.cols →
      (fillI applied resistances 0 rb).entry (i * resistances.cols + j) k =
        applied.entry i k / resistances.entry i j := by
  intro i j k hj
  have hcomm : i * resistances.cols + j = j + i * resistances.cols := by omega
  have hdiv : (i * resistances.cols + j) / resistances.cols = i := by
    rw [hcomm, Nat.add_mul_div_right _ _ hn, Nat.div_eq_of_lt hj, Nat.zero_add]
  have hmod : (i * resistances.cols + j) % resistances.cols = j := by
    rw [hcomm, Nat.add_mul_mod_self_right, Nat.mod_eq_of_lt hj]
  simp [fillI, npDivide, npRepeatRows, npRepeatCols, reshapeFlatCol, hdiv, hmod]

/-- Instantiation of `fillI_reduced_word_line` at the concrete arrays,
crosspoint `(1,2)`, example 3. -/
theorem fillI_reduced_word_line_witness :
    (fillI appW matW 0 1).entry (1 * matW.cols + 2) 3 =
      appW.entry 1 3 / matW.entry 1 2 :=
  fillI_reduced_word_line appW matW 1 (by decide) 1 2 3 (by norm_num [matW])

/-- An array with an entry satisfying some predicate has nonzero size. -/
theorem arrSize_ne_zero_of_any (a : Arr) (p : FVal → Bool)
    (h : a.any (fun row => row.any p) = true) : arrSize a ≠ 0 := by
  induction a with
  | nil => simp at h
  | cons hd tl ih =>
    simp only [List.any_cons, Bool.or_eq_true] at h
    rcases h with h | h
    · cases hd with
      | nil => simp at h
      | cons v vs =>
        simp only [arrSize, List.map_cons, List.sum_cons, List.length_cons]
        omega
    · have := ih h
      simp only [arrSize, List.map_cons, List.sum_cons] at this ⊢
      omega

/-- C1: for every resistances array containing a zero entry (and inputs
passing the earlier checks), `check.crossbar_requirements` aborts with
the short-circuit message when both interconnect resistances are zero
and with the unsupported-zero-resistance message otherwise, and the two
messages are distinct error reports. -/
theorem short_circuit_zero_resistance (resistances applied_voltages : Arr)
    (rw rb : ℚ)
    (hz : containsZero resistances = true)
    (hne : arrSize applied_voltages ≠ 0)
    (hnn : anyNegative resistances = false)
    (hsh : applied_voltages.length = resistances.length)
    (hrw : 0 ≤ rw) (hrb : 0 ≤ rb) :
    crossbar_requirements resistances applied_voltages (some rw) (some rb) =
      .error (.valueError
        (if rw = 0 ∧ rb = 0 then shortCircuitMsg else zeroResistanceMsg)) ∧
    shortCircuitMsg ≠ zeroResistanceMsg := by
  have h1 : arrSize resistances ≠ 0 :=
    arrSize_ne_zero_of_any _ _ (by simpa [containsZero] using hz)
  constructor
  · by_cases hc : rw = 0 ∧ rb = 0 <;>
      simp [crossbar_requirements, non_empty, non_negative_array, number,
        non_negative_number, short_circuit, h1, hne, hnn, hsh,
        not_lt.mpr hrw, not_lt.mpr hrb, hz, hc]
  · decide

/-- Instantiation of `short_circuit_zero_resistance` at a single zero
device resistance with both interconnect resistances zero. -/
theorem short_circuit_zero_resistance_witness :
    crossbar_requirements [[FVal.fin 0]] [[FVal.fin 1]] (some 0) (some 0) =
      .error (.valueError
        (if (0 : ℚ) = 0 ∧ (0 : ℚ) = 0 then shortCircuitMsg else zeroResistanceMsg)) ∧
    shortCircuitMsg ≠ zeroResistanceMsg :=
  short_circuit_zero_resistance [[FVal.fin 0]] [[FVal.fin 1]] 0 0 (by decide)
    (by decide) (by decide) rfl le_rfl le_rfl

/-- C6 counterexample: a resistances array whose only entry is positive
infinity passes `check.crossbar_requirements` without any error — the
non-negativity check does not reject it and `crossbar_requirements`
never applies the non-infinite check. -/
theorem crossbar_accepts_positive_infinity :
    crossbar_requirements [[FVal.pinf]] [[FVal.fin 1]] (some 1) (some 1) =
      .ok ([[FVal.pinf]], [[FVal.fin 1]]) := rfl

/-- C6 amended: `check.crossbar_requirements` raises an error for every
resistances array containing a negatively infinite entry (caught by the
non-negativity check); positively infinite entries are not rejected. -/
theorem crossbar_rejects_negative_infinity (resistances applied_voltages : Arr)
    (rwO rbO : Option ℚ)
    (h : resistances.any (fun row => row.any (fun v => decide (v = FVal.ninf))) = true) :
    ∃ e, crossbar_requirements resistances applied_voltages rwO rbO = .error e := by
  have h1 : arrSize resistances ≠ 0 := arrSize_ne_zero_of_any _ _ h
  have hneg : anyNegative resistances = true := by
    simp only [anyNegative, List.any_eq_true, decide_eq_true_eq] at h ⊢
    obtain ⟨row, hrow, v, hv, hv2⟩ := h
    exact ⟨row, hrow, v, hv, by rw [hv2]; rfl⟩
  by_cases h2 : arrSize applied_voltages = 0
  · exact ⟨.valueError "applied_voltages array is empty!",
      by simp [crossbar_requirements, non_empty, h1, h2]⟩
  · exact ⟨.valueError "resistances array contains at least one negative value!",
      by simp [crossbar_requirements, non_empty, non_negative_array, h1, h2, hneg]⟩

/-- Instantiation of `crossbar_rejects_negative_infinity` at a single
negatively infinite device resistance. -/
theorem crossbar_rejects_negative_infinity_witness :
    ∃ e, crossbar_requirements [[FVal.ninf]] [[FVal.fin 1]]
      (some 1) (some 1) = .error e :=
  crossbar_rejects_negative_infinity [[FVal.ninf]] [[FVal.fin 1]]
    (some 1) (some 1) (by decide)

/-- A successful run of `check.crossbar_requirements` returns the input
arrays unchanged. -/
theorem crossbar_requirements_ok_eq (resistances applied_voltages : Arr)
    (rwO rbO : Option ℚ) (pr : Arr × Arr)
    (h : crossbar_requirements resistances applied_voltages rwO rbO = .ok pr) :
    pr = (resistances, applied_voltages) := by
  unfold crossbar_requirements at h
  repeat' split at h
  all_goals simp_all

/-- C8: for every successful call of `compute` with `m` word lines, `n`
bit lines and `p` applied-voltage examples, the device, word-line and
bit-line currents and the node voltages have shape `m x n` when
`p = 1` and `m x n x p` when `p > 1`, and the output currents have
shape `p x n` in both cases. -/
theorem compute_solution_shapes (applied_voltages resistances : Arr)
    (r_i rwO rbO : Option ℚ) (sol : Solution)
    (h : compute applied_voltages resistances r_i rwO rbO = .ok sol) :
    (((applied_voltages.headD []).length = 1 →
       sol.deviceCurrents =
         [resistances.length, (resistances.headD []).length] ∧
       sol.wordLineCurrents =
         [resistances.length, (resistances.headD []).length] ∧
       sol.bitLineCurrents =
         [resistances.length, (resistances.headD []).length] ∧
       sol.wordLineVoltages =
         [resistances.length, (resistances.headD []).length] ∧
       sol.bitLineVoltages =
         [resistances.length, (resistances.headD []).length]) ∧
     (1 < (applied_voltages.headD []).length →
       sol.deviceCurrents =
         [resistances.length, (resistances.headD []).length,
          (applied_voltages.headD []).length] ∧
       sol.wordLineCurrents =
         [resistances.length, (resistances.headD []).length,
          (applied_voltages.headD []).length] ∧
       sol.bitLineCurrents =
         [resistances.length, (resistances.headD []).length,
          (applied_voltages.headD []).length] ∧
       sol.wordLineVoltages =
         [resistances.length, (resistances.headD []).length,
          (applied_voltages.headD []).length] ∧
       sol.bitLineVoltages =
         [resistances.length, (resistances.headD []).length,
          (applied_voltages.headD []).length]) ∧
     sol.outputCurrents =
       [(applied_voltages.headD []).length, (resistances.headD []).length]) := by
  simp only [compute] at h
  split at h
  · exact absurd h (by simp)
  · rename_i pr heq
    have hpr := crossbar_requirements_ok_eq _ _ _ _ _ heq
    subst hpr
    have hsol : sol = extractSolution resistances applied_voltages := by
      injection h with h2
      exact h2.symm
    subst hsol
    refine ⟨?_, ?_, ?_⟩
    · intro hp
      rw [List.headD_eq_head?] at hp
      simp [extractSolution, hp]
    · intro hp
      have hp1 : ((applied_voltages.head?).getD []).length ≠ 1 := by
        rw [List.headD_eq_head?] at hp
        omega
      simp [extractSolution, hp1]
    · simp [extractSolution]

/-- Instantiation of `compute_solution_shapes` at a 1 x 1 crossbar with
one example: the output currents have shape `[1, 1]`. -/
theorem compute_solution_shapes_witness :
    (extractSolution [[FVal.fin 2]] [[FVal.fin 1]]).outputCurrents = [1, 1] :=
  (compute_solution_shapes [[FVal.fin 1]] [[FVal.fin 2]] none (some 1) (some 1)
    (extractSolution [[FVal.fin 2]] [[FVal.fin 1]]) rfl).2.2
